import Mathlib

/-!
Verification of the interrupt-ownership / interrupt-configuration layer of
the mcan CAN-bus driver (src/mcan/src/interrupt.rs) and of the dedicated
receive-buffer poller (src/mcan/src/rx_dedicated_buffers.rs).

The Rust source is shallowly embedded: u32 values become Nat (with explicit
2^32 bounds where overflow or register width matters), bitwise negation on
u32 becomes xor with the all-ones 32-bit mask, registers become an explicit
record threaded through the operations, and each hardware write is recorded
in an ordered trace so that write-ordering facts can be stated.
-/

namespace Mcan

/-- Bitwise complement on 32-bit values: the embedding of Rust `!x` on u32
(for x already reduced mod 2^32 this is the exact complement). -/
def not32 (x : Nat) : Nat := 0xffffffff ^^^ (x &&& 0xffffffff)

theorem testBit_not32 (x i : Nat) :
    (not32 x).testBit i = (decide (i < 32) && !x.testBit i) := by
  have h : (0xffffffff : Nat) = 2 ^ 32 - 1 := by norm_num
  simp only [not32, h, Nat.testBit_xor, Nat.testBit_land, Nat.testBit_two_pow_sub_one]
  cases hd : decide (i < 32) <;> cases hx : x.testBit i <;> simp

theorem testBit_one_shl (i j : Nat) :
    (1 <<< i).testBit j = decide (j = i) := by
  simp only [Nat.testBit_shiftLeft]
  rcases Nat.lt_trichotomy j i with h | h | h
  · simp [Nat.not_le.mpr h, Nat.ne_of_lt h]
  · subst h; simp [Nat.testBit_zero]
  · have hle : i ≤ j := Nat.le_of_lt h
    have hpos : 0 < j - i := Nat.sub_pos_of_lt h
    have : (1 : Nat).testBit (j - i) = false := by
      have : (1 : Nat) < 2 ^ (j - i) := by
        calc (1 : Nat) < 2 ^ 1 := by norm_num
        _ ≤ 2 ^ (j - i) := Nat.pow_le_pow_right (by norm_num) hpos
      exact Nat.testBit_lt_two_pow this
    simp [hle, this, Nat.ne_of_gt h]

theorem eq_zero_iff_testBit (n : Nat) : n = 0 ↔ ∀ i, n.testBit i = false := by
  constructor
  · rintro rfl i; exact Nat.zero_testBit i
  · intro h; exact Nat.eq_of_testBit_eq fun i => (h i).trans (Nat.zero_testBit i).symm

theorem testBit_high_eq_false {x : Nat} (hx : x < 2 ^ 32) {j : Nat} (hj : 32 ≤ j) :
    x.testBit j = false := by
  apply Nat.testBit_lt_two_pow
  exact lt_of_lt_of_le hx (Nat.pow_le_pow_right (by norm_num) hj)

/-- Disjointness of two bitmasks. -/
def Disj (a b : Nat) : Prop := a &&& b = 0

instance (a b : Nat) : Decidable (Disj a b) := by unfold Disj; infer_instance

theorem Disj_iff (a b : Nat) :
    Disj a b ↔ ∀ i, a.testBit i = false ∨ b.testBit i = false := by
  unfold Disj
  rw [eq_zero_iff_testBit]
  constructor
  · intro h i
    have := h i
    rw [Nat.testBit_land] at this
    rcases Bool.and_eq_false_iff.mp this with h' | h'
    · exact Or.inl h'
    · exact Or.inr h'
  · intro h i
    rw [Nat.testBit_land]
    rcases h i with h' | h' <;> simp [h']

theorem Disj.symm {a b : Nat} (h : Disj a b) : Disj b a := by
  rw [Disj_iff] at h ⊢
  intro i
  exact (h i).symm

theorem Disj_symmetric : ∀ {a b : Nat}, Disj a b → Disj b a := @Disj.symm

/-- A sub-mask of a mask disjoint from x is still disjoint from x. -/
theorem Disj.mono_left {a x : Nat} (h : Disj a x) (a' : Nat)
    (hsub : ∀ i, a'.testBit i = true → a.testBit i = true) : Disj a' x := by
  rw [Disj_iff] at h ⊢
  intro i
  rcases h i with h' | h'
  · cases ha : a'.testBit i
    · exact Or.inl rfl
    · exact absurd (hsub i ha) (by simp [h'])
  · exact Or.inr h'

theorem Disj_land_left (m y x : Nat) (h : Disj m x) : Disj (m &&& y) x :=
  h.mono_left _ fun i hi => by
    rw [Nat.testBit_land] at hi
    exact (Bool.and_eq_true_iff.mp hi).1

theorem Disj_lor (a b x : Nat) (ha : Disj a x) (hb : Disj b x) : Disj (a ||| b) x := by
  rw [Disj_iff] at ha hb ⊢
  intro i
  rcases ha i with h1 | h1
  · rcases hb i with h2 | h2
    · exact Or.inl (by rw [Nat.testBit_lor, h1, h2]; rfl)
    · exact Or.inr h2
  · exact Or.inr h1

theorem Disj_split_pieces (m s : Nat) : Disj (m &&& not32 s) (m &&& s) := by
  rw [Disj_iff]
  intro i
  simp only [Nat.testBit_land, testBit_not32]
  cases hm : m.testBit i <;> cases hs : s.testBit i <;> simp

/-! ### InterruptSet and its iterator

`InterruptSet` in the source is a newtype over u32; interrupts are identified
with their bit positions 0..29 (the `Interrupt` enum discriminants), so the
embedding of `Interrupt` is a Nat known to be below 30 and the embedding of
an `InterruptSet` is its raw u32 payload as a Nat. -/

/-- Embedding of `impl TryFrom<u8> for Interrupt`: numeric codes 0..29 map to
the interrupt at that bit position, codes at 30 and above fail with
`InvalidInterruptNumber` (here: `none`). -/
def Interrupt.tryFrom (value : Nat) : Option Nat :=
  if value < 30 then some value else none

/-- Embedding of `u8::saturating_add(1)` used by the iterator cursor. -/
def satAdd8 (x : Nat) : Nat := min (x + 1) 255

/-- Embedding of the `Iter` struct: captured flags plus a u8 cursor. -/
structure Iter where
  flags : Nat
  index : Nat
deriving Repr, DecidableEq

/-- Embedding of `InterruptSet::iter`. -/
def InterruptSet.iter (v : Nat) : Iter := { flags := v, index := 0 }

/-- Embedding of `InterruptSet::is_empty`. -/
def InterruptSet.is_empty (v : Nat) : Bool := v == 0

/-- Embedding of `Iterator::next for Iter`: advance the cursor (saturating),
convert the old cursor through the fallible numeric conversion (ending the
iteration at 30), yield the position when its bit is set, otherwise retry. -/
def Iter.next (it : Iter) : Option (Nat × Iter) :=
  let i := it.index
  let advanced : Iter := { it with index := satAdd8 i }
  match h : Interrupt.tryFrom i with
  | none => none
  | some int =>
    if it.flags &&& (1 <<< i) != 0 then some (int, advanced)
    else Iter.next advanced
termination_by 30 - it.index
decreasing_by
  simp only [Interrupt.tryFrom] at h
  split at h
  · next hlt =>
    simp only [satAdd8]
    omega
  · exact absurd h (by simp)

/-- Exhausts the iterator into the list of yielded bit positions; `fuel`
bounds the number of `next` calls (31 suffices from a fresh iterator). -/
def Iter.collect : Nat → Iter → List Nat
  | 0, _ => []
  | fuel + 1, it =>
    match it.next with
    | none => []
    | some (x, it') => x :: Iter.collect fuel it'

/-- All items yielded by iterating the `InterruptSet` with raw value `v`. -/
def iterList (v : Nat) : List Nat := Iter.collect 31 (InterruptSet.iter v)

/-- Embedding of `impl FromIterator<Interrupt> for InterruptSet`: fold
bitwise-or of `u32::from(int) = 1 << int` starting from zero. -/
def InterruptSet.from_iter (l : List Nat) : Nat :=
  l.foldl (fun set int => set ||| (1 <<< int)) 0

theorem tryFrom_lt {i : Nat} (h : i < 30) : Interrupt.tryFrom i = some i := by
  simp [Interrupt.tryFrom, h]

theorem tryFrom_ge {i : Nat} (h : 30 ≤ i) : Interrupt.tryFrom i = none := by
  simp [Interrupt.tryFrom, Nat.not_lt.mpr h]

/-- The bit test `flags & (1 << i) != 0` in the iterator is exactly `testBit`. -/
theorem land_shl_ne (v i : Nat) : (v &&& (1 <<< i) != 0) = v.testBit i := by
  cases hb : v.testBit i
  · have hz : v &&& (1 <<< i) = 0 := by
      rw [eq_zero_iff_testBit]
      intro j
      rw [Nat.testBit_land, testBit_one_shl]
      by_cases hji : j = i
      · subst hji; simp [hb]
      · simp [hji]
    simp [hz]
  · have hnz : v &&& (1 <<< i) ≠ 0 := by
      intro hz
      have := (eq_zero_iff_testBit _).mp hz i
      rw [Nat.testBit_land, testBit_one_shl] at this
      simp [hb] at this
    simp [hnz]

theorem satAdd8_small {i : Nat} (h : i < 255) : satAdd8 i = i + 1 := by
  simp [satAdd8]
  omega

theorem Iter.next_ge {v i : Nat} (h : 30 ≤ i) : Iter.next ⟨v, i⟩ = none := by
  rw [Iter.next]
  split
  · rfl
  · next int heq => simp [tryFrom_ge h] at heq

theorem Iter.next_set {v i : Nat} (h : i < 30) (hbit : v.testBit i = true) :
    Iter.next ⟨v, i⟩ = some (i, ⟨v, i + 1⟩) := by
  have hcond : (v &&& 1 <<< i != 0) = true := by rw [land_shl_ne, hbit]
  rw [Iter.next]
  split
  · next heq => simp [tryFrom_lt h] at heq
  · next int heq =>
    rw [tryFrom_lt h] at heq
    injection heq with h2
    subst h2
    simp only [hcond, if_true, satAdd8_small (by omega : i < 255)]

theorem Iter.next_unset {v i : Nat} (h : i < 30) (hbit : v.testBit i = false) :
    Iter.next ⟨v, i⟩ = Iter.next ⟨v, i + 1⟩ := by
  have hcond : (v &&& 1 <<< i != 0) = false := by rw [land_shl_ne, hbit]
  conv_lhs => rw [Iter.next]
  split
  · next heq => simp [tryFrom_lt h] at heq
  · next int heq =>
    simp only [hcond, Bool.false_eq_true, if_false, satAdd8_small (by omega : i < 255)]

/-- The yielded list of an iterator at cursor `i` is the ascending list of
set bit positions in `[i, 30)`, provided the fuel exceeds the remaining
positions. -/
theorem Iter.collect_spec (v : Nat) :
    ∀ n i fuel, i + n = 30 → n < fuel →
      Iter.collect fuel ⟨v, i⟩ = (List.range' i n).filter v.testBit := by
  intro n
  induction n with
  | zero =>
    intro i fuel hi hf
    obtain ⟨f, rfl⟩ : ∃ f, fuel = f + 1 := ⟨fuel - 1, by omega⟩
    have hi30 : i = 30 := by omega
    subst hi30
    simp [Iter.collect, Iter.next_ge (le_refl 30)]
  | succ n ih =>
    intro i fuel hi hf
    obtain ⟨f, rfl⟩ : ∃ f, fuel = f + 1 := ⟨fuel - 1, by omega⟩
    have hlt : i < 30 := by omega
    rw [List.range'_succ]
    cases hbit : v.testBit i
    · rw [List.filter_cons_of_neg (by simp [hbit])]
      have : Iter.collect (f + 1) ⟨v, i⟩ = Iter.collect (f + 1) ⟨v, i + 1⟩ := by
        simp only [Iter.collect, Iter.next_unset hlt hbit]
      rw [this, ih (i + 1) (f + 1) (by omega) (by omega)]
    · rw [List.filter_cons_of_pos (by simp [hbit])]
      have : Iter.collect (f + 1) ⟨v, i⟩ = i :: Iter.collect f ⟨v, i + 1⟩ := by
        simp only [Iter.collect, Iter.next_set hlt hbit]
      rw [this, ih (i + 1) f (by omega) (by omega)]

/-- Iterating from a fresh iterator yields exactly the set bits below 30. -/
theorem iterList_eq (v : Nat) :
    iterList v = (List.range 30).filter v.testBit := by
  have := Iter.collect_spec v 30 0 31 (by omega) (by omega)
  rw [iterList, InterruptSet.iter, this, List.range_eq_range']

theorem mask30_testBit (v j : Nat) :
    (v &&& 0x3fffffff).testBit j = (v.testBit j && decide (j < 30)) := by
  have h : (0x3fffffff : Nat) = 2 ^ 30 - 1 := by norm_num
  rw [Nat.testBit_land, h, Nat.testBit_two_pow_sub_one]

theorem mem_iterList (v j : Nat) :
    j ∈ iterList v ↔ v.testBit j = true ∧ j < 30 := by
  rw [iterList_eq, List.mem_filter, List.mem_range]
  tauto

/-- C3: For every 32-bit raw value v, iterating InterruptSet(v) yields exactly
one Interrupt for each set bit of v AND 0x3FFFFFFF, in ascending bit-position
order, yields no other items, and never yields a bit position 30 or 31 even
when those bits are set in v. -/
theorem C3_iterator_yields_masked_bits_ascending (v : Nat) :
    iterList v = (List.range 32).filter (fun j => (v &&& 0x3fffffff).testBit j) ∧
    List.Pairwise (· < ·) (iterList v) ∧
    (∀ j, j ∈ iterList v ↔ v.testBit j = true ∧ j < 30) := by
  refine ⟨?_, ?_, mem_iterList v⟩
  · rw [iterList_eq]
    have h32 : List.range 32 = (List.range 30 ++ [30]) ++ [31] := by
      rw [← List.range_succ, ← List.range_succ]
    rw [h32, List.filter_append, List.filter_append]
    have hm : ∀ j, 30 ≤ j → Nat.testBit 0x3fffffff j = false := by
      intro j hj
      apply Nat.testBit_lt_two_pow
      calc (0x3fffffff : Nat) < 2 ^ 30 := by norm_num
      _ ≤ 2 ^ j := Nat.pow_le_pow_right (by norm_num) hj
    have h30 : List.filter (fun j => (v &&& 0x3fffffff).testBit j) [30] = [] := by
      simp [hm 30 (by norm_num)]
    have h31 : List.filter (fun j => (v &&& 0x3fffffff).testBit j) [31] = [] := by
      simp [hm 31 (by norm_num)]
    rw [h30, h31, List.append_nil, List.append_nil]
    apply List.filter_congr
    intro j hj
    rw [List.mem_range] at hj
    rw [mask30_testBit, decide_eq_true hj, Bool.and_true]
  · rw [iterList_eq]
    exact List.Pairwise.sublist (List.filter_sublist _) (List.pairwise_lt_range 30)

theorem from_iter_testBit (l : List Nat) (a j : Nat) :
    (l.foldl (fun set int => set ||| (1 <<< int)) a).testBit j
      = (a.testBit j || decide (j ∈ l)) := by
  induction l generalizing a with
  | nil => simp
  | cons x xs ih =>
    simp only [List.foldl_cons, ih, Nat.testBit_lor, testBit_one_shl, List.mem_cons]
    cases a.testBit j <;> by_cases h1 : j = x <;> by_cases h2 : j ∈ xs <;>
      simp [h1, h2]

/-- C4: Round trip — collecting the iterator of InterruptSet(v) back into an
InterruptSet via the FromIterator union yields v AND 0x3FFFFFFF: identical to
v when reserved bits 30 and 31 are clear, those bits stripped otherwise. -/
theorem C4_round_trip (v : Nat) :
    InterruptSet.from_iter (iterList v) = v &&& 0x3fffffff := by
  apply Nat.eq_of_testBit_eq
  intro j
  rw [InterruptSet.from_iter, from_iter_testBit, Nat.zero_testBit, Bool.false_or,
    mask30_testBit]
  by_cases hm : j ∈ iterList v
  · obtain ⟨hb, hj⟩ := (mem_iterList v j).mp hm
    simp [hm, hb, hj]
  · have hnot := (mem_iterList v j).not.mp hm
    have hrhs : (v.testBit j && decide (j < 30)) = false := by
      cases hb : v.testBit j
      · simp
      · by_cases hj : j < 30
        · exact absurd ⟨hb, hj⟩ hnot
        · simp [hj]
    rw [hrhs, decide_eq_false hm]

/-! ### State markers, owned tokens and the register model

In the source the state marker is a zero-sized type parameter
(`state::Dynamic`, `state::Disabled`, `state::EnabledLine0`,
`state::EnabledLine1`); here it is an explicit field on the token.
The `state` module itself is not in the supplied sources. -/

/-- Modelled from the spec: the `state` submodule of interrupt.rs is missing
from the supplied sources; the spec lists the four compile-time markers
Dynamic, Disabled, EnabledOnLine0, EnabledOnLine1. -/
inductive TState
  | Dynamic
  | Disabled
  | EnabledLine0
  | EnabledLine1
deriving Repr, DecidableEq

/-- Modelled from the spec: the capability grouping called possibly
delivering, i.e. the `state::MaybeEnabled` trait, holds for Dynamic,
EnabledOnLine0 and EnabledOnLine1 but not Disabled. -/
def MaybeEnabled (s : TState) : Prop :=
  s = TState.Dynamic ∨ s = TState.EnabledLine0 ∨ s = TState.EnabledLine1

instance (s : TState) : Decidable (MaybeEnabled s) := by
  unfold MaybeEnabled; infer_instance

/-- Embedding of `OwnedInterruptSet<Id, State>`: the held bitmask plus the
state marker (the peripheral identity marker has no behavioral content). -/
structure OwnedInterruptSet where
  mask : Nat
  st : TState
deriving Repr, DecidableEq

/-- Embedding of `OwnedInterruptSet::empty`. -/
def OwnedInterruptSet.empty (s : TState) : OwnedInterruptSet :=
  { mask := 0, st := s }

/-- Embedding of the private `OwnedInterruptSet::convert` state cast: the
bitmask moves unchanged, only the marker changes. -/
def OwnedInterruptSet.convert (self : OwnedInterruptSet) (newSt : TState) :
    OwnedInterruptSet :=
  { mask := self.mask, st := newSt }

/-- Embedding of `OwnedInterruptSet::split_leniently`: the intersection with
`subset` is moved out, the rest remains; never fails. -/
def OwnedInterruptSet.split_leniently (self : OwnedInterruptSet) (subset : Nat) :
    OwnedInterruptSet × OwnedInterruptSet :=
  let remaining := self.mask &&& not32 subset
  let split_out := self.mask &&& subset
  ({ self with mask := remaining }, { mask := split_out, st := self.st })

/-- Embedding of `OwnedInterruptSet::split`: `missing = !self.0.0 & subset.0`;
error carrying `missing` when nonzero (self untouched), lenient split
otherwise. The first component is the token left behind in `self`. -/
def OwnedInterruptSet.split (self : OwnedInterruptSet) (subset : Nat) :
    OwnedInterruptSet × Except Nat OwnedInterruptSet :=
  let missing := not32 self.mask &&& subset
  if missing ≠ 0 then (self, Except.error missing)
  else
    let p := self.split_leniently subset
    (p.1, Except.ok p.2)

/-- Embedding of `OwnedInterruptSet::join`: union of the two masks into self
(the source only debug-asserts disjointness). -/
def OwnedInterruptSet.join (self other : OwnedInterruptSet) : OwnedInterruptSet :=
  { self with mask := self.mask ||| other.mask }

/-! ### The hardware registers

The `reg` module (an svd2rust-style register access layer) is not among the
supplied sources. Modelled from the spec: the four registers are
pending-flags IR (write-one-to-clear), line-select ILS (bit i = 0 routes
interrupt i to line 0, 1 to line 1), line-enable ILE (bit 0 gates line 0,
bit 1 gates line 1), and flag-enable IE; `modify` performs a
read-modify-write of the named register and `write` overwrites it, with the
W1C rule applying to IR. Each performed write is recorded in an ordered
trace of (register, raw written value) pairs. -/
inductive RegName
  | ir
  | ie
  | ils
  | ile
deriving Repr, DecidableEq

/-- The peripheral interrupt-related register file. -/
structure Regs where
  ir : Nat
  ie : Nat
  ils : Nat
  ile : Nat
deriving Repr, DecidableEq

/-- One recorded hardware write: which register, and the raw value written. -/
abbrev HwWrite := RegName × Nat

/-- Embedding of `InterruptLine`. -/
inductive InterruptLine
  | line0
  | line1
deriving Repr, DecidableEq

/-- Embedding of `OwnedInterruptSet::interrupt_flags` (requires
`MaybeEnabled`): read IR masked to the owned bits; purely a read, so the
register file is returned unchanged and the write trace is empty. -/
def OwnedInterruptSet.interrupt_flags (self : OwnedInterruptSet) (r : Regs) :
    Nat × Regs × List HwWrite :=
  (r.ir &&& self.mask, r, [])

/-- Embedding of `OwnedInterruptSet::clear_interrupts` (requires
`MaybeEnabled`): write `interrupts & self.mask` to IR; by W1C exactly those
bits are cleared from the pending flags. -/
def OwnedInterruptSet.clear_interrupts (self : OwnedInterruptSet)
    (interrupts : Nat) (r : Regs) : Regs × List HwWrite :=
  let masked := interrupts &&& self.mask
  ({ r with ir := r.ir &&& not32 masked }, [(RegName.ir, masked)])

/-- Embedding of `OwnedInterruptSet::iter_flagged` (requires `MaybeEnabled`):
read the owned pending bits, clear exactly that snapshot, return an iterator
over the snapshot. -/
def OwnedInterruptSet.iter_flagged (self : OwnedInterruptSet) (r : Regs) :
    Iter × Regs × List HwWrite :=
  let f := self.interrupt_flags r
  let c := self.clear_interrupts f.1 f.2.1
  (InterruptSet.iter f.1, c.1, f.2.2 ++ c.2)

/-- Embedding of `OwnedInterruptSet::split_flagged` (requires
`MaybeEnabled`): lenient split at the currently flagged owned bits. -/
def OwnedInterruptSet.split_flagged (self : OwnedInterruptSet) (r : Regs) :
    (OwnedInterruptSet × OwnedInterruptSet) × Regs × List HwWrite :=
  let f := self.interrupt_flags r
  (self.split_leniently f.1, f.2.1, f.2.2)

/-! ### The interrupt configuration controller -/

/-- Embedding of `InterruptConfiguration::enable_line`: set the global
enable bit of the chosen line in ILE (bit 0 for line 0, bit 1 for line 1)
by read-modify-write. -/
def InterruptConfiguration.enable_line (line : InterruptLine) (r : Regs) :
    Regs × List HwWrite :=
  let v := match line with
    | InterruptLine.line0 => r.ile ||| 1
    | InterruptLine.line1 => r.ile ||| 2
  ({ r with ile := v }, [(RegName.ile, v)])

/-- Embedding of `InterruptConfiguration::set_line`: first `enable_line`,
then a masked read-modify-write of ILS clearing the owned bits for line 0 or
setting them for line 1. -/
def InterruptConfiguration.set_line (interrupts : OwnedInterruptSet)
    (line : InterruptLine) (r : Regs) : Regs × List HwWrite :=
  let e := InterruptConfiguration.enable_line line r
  let mask := interrupts.mask
  let v := match line with
    | InterruptLine.line0 => e.1.ils &&& not32 mask
    | InterruptLine.line1 => e.1.ils ||| mask
  ({ e.1 with ils := v }, e.2 ++ [(RegName.ils, v)])

/-- Embedding of `InterruptConfiguration::set_enabled`: masked
read-modify-write of IE, setting the owned bits when enabling and clearing
them when disabling. -/
def InterruptConfiguration.set_enabled (interrupts : OwnedInterruptSet)
    (enabled : Bool) (r : Regs) : Regs × List HwWrite :=
  let mask := interrupts.mask
  let v := if enabled then r.ie ||| mask else r.ie &&& not32 mask
  ({ r with ie := v }, [(RegName.ie, v)])

/-- Embedding of `InterruptConfiguration::raw_enable`: convert the incoming
token to Dynamic, `set_line`, then `set_enabled(true)`, and re-tag the token
to the caller-selected output state. -/
def InterruptConfiguration.raw_enable (interrupt : OwnedInterruptSet)
    (line : InterruptLine) (outSt : TState) (r : Regs) :
    OwnedInterruptSet × Regs × List HwWrite :=
  let dyn := interrupt.convert TState.Dynamic
  let s1 := InterruptConfiguration.set_line dyn line r
  let s2 := InterruptConfiguration.set_enabled dyn true s1.1
  (dyn.convert outSt, s2.1, s1.2 ++ s2.2)

/-- Embedding of `InterruptConfiguration::enable_line_0`. -/
def InterruptConfiguration.enable_line_0 (interrupt : OwnedInterruptSet)
    (r : Regs) : OwnedInterruptSet × Regs × List HwWrite :=
  InterruptConfiguration.raw_enable interrupt InterruptLine.line0
    TState.EnabledLine0 r

/-- Embedding of `InterruptConfiguration::enable_line_1`. -/
def InterruptConfiguration.enable_line_1 (interrupt : OwnedInterruptSet)
    (r : Regs) : OwnedInterruptSet × Regs × List HwWrite :=
  InterruptConfiguration.raw_enable interrupt InterruptLine.line1
    TState.EnabledLine1 r

/-- Embedding of `InterruptConfiguration::enable`: runtime dispatch on the
line; result converted to Dynamic. -/
def InterruptConfiguration.enable (interrupt : OwnedInterruptSet)
    (line : InterruptLine) (r : Regs) : OwnedInterruptSet × Regs × List HwWrite :=
  match line with
  | InterruptLine.line0 =>
    let e := InterruptConfiguration.enable_line_0 interrupt r
    (e.1.convert TState.Dynamic, e.2)
  | InterruptLine.line1 =>
    let e := InterruptConfiguration.enable_line_1 interrupt r
    (e.1.convert TState.Dynamic, e.2)

/-- Embedding of `InterruptConfiguration::disable`: convert to Dynamic,
`set_enabled(false)`, re-tag Disabled. -/
def InterruptConfiguration.disable (interrupt : OwnedInterruptSet) (r : Regs) :
    OwnedInterruptSet × Regs × List HwWrite :=
  let dyn := interrupt.convert TState.Dynamic
  let s1 := InterruptConfiguration.set_enabled dyn false r
  (dyn.convert TState.Disabled, s1.1, s1.2)

/-- Embedding of `InterruptConfiguration::new` (bring-up): write the reset
value 0 to ILS (all interrupts routed to line 0) and hand out the single
token covering all 30 non-reserved bits, tagged Disabled. The source names
the constant RESERVED_BITS; its value 0x3fffffff is the non-reserved mask. -/
def InterruptConfiguration.new (r : Regs) :
    OwnedInterruptSet × Regs × List HwWrite :=
  ({ mask := 0x3fffffff, st := TState.Disabled },
   { r with ils := 0 }, [(RegName.ils, 0)])

/-! ### Mask algebra for split and join -/

theorem missing_zero_of_subset {a b : Nat} (h : b &&& a = b) :
    not32 a &&& b = 0 := by
  rw [eq_zero_iff_testBit]
  intro j
  have hj : (b.testBit j && a.testBit j) = b.testBit j := by
    rw [← Nat.testBit_land, h]
  rw [Nat.testBit_land, testBit_not32]
  cases hb : b.testBit j
  · simp
  · rw [hb] at hj
    simp only [Bool.true_and] at hj
    simp [hj]

theorem subset_of_missing_zero {a b : Nat} (hb : b < 2 ^ 32)
    (h : not32 a &&& b = 0) : b &&& a = b := by
  rw [eq_zero_iff_testBit] at h
  apply Nat.eq_of_testBit_eq
  intro j
  rw [Nat.testBit_land]
  cases hbj : b.testBit j
  · simp
  · have hj32 : j < 32 := by
      by_contra hge
      rw [testBit_high_eq_false hb (by omega)] at hbj
      exact Bool.false_ne_true hbj
    have := h j
    rw [Nat.testBit_land, testBit_not32, hbj, decide_eq_true hj32] at this
    simp only [Bool.true_and, Bool.and_true] at this
    cases ha : a.testBit j
    · rw [ha] at this; simp at this
    · simp

theorem split_union {a s : Nat} (ha : a < 2 ^ 32) :
    (a &&& not32 s) ||| (a &&& s) = a := by
  apply Nat.eq_of_testBit_eq
  intro j
  rw [Nat.testBit_lor, Nat.testBit_land, Nat.testBit_land, testBit_not32]
  by_cases hj : j < 32
  · cases hs : s.testBit j <;> cases haj : a.testBit j <;> simp [hj, hs]
  · rw [testBit_high_eq_false ha (by omega)]
    simp

/-- C2: split succeeds iff the requested subset is contained in the owned
mask; on success the remainder is original AND NOT subset, the returned
token carries exactly subset with the same state marker, the two are
disjoint and their union is the original; on failure the error is
NOT original AND subset and self is unchanged. -/
theorem C2_split_exact (self : OwnedInterruptSet) (subset : Nat)
    (hself : self.mask < 2 ^ 32) (hsub : subset < 2 ^ 32) :
    ((self.split subset).2.isOk = true ↔ subset &&& self.mask = subset) ∧
    (∀ s' out, self.split subset = (s', Except.ok out) →
      s'.mask = self.mask &&& not32 subset ∧ out.mask = subset ∧
      out.st = self.st ∧ s'.st = self.st ∧
      Disj s'.mask out.mask ∧ (s'.mask ||| out.mask) = self.mask) ∧
    (∀ s' e, self.split subset = (s', Except.error e) →
      e = not32 self.mask &&& subset ∧ s' = self) := by
  by_cases hm : not32 self.mask &&& subset = 0
  · have hsplit : self.split subset =
        ((self.split_leniently subset).1, Except.ok (self.split_leniently subset).2) := by
      rw [OwnedInterruptSet.split]
      simp [hm]
    have hcont : subset &&& self.mask = subset := subset_of_missing_zero hsub hm
    refine ⟨?_, ?_, ?_⟩
    · rw [hsplit]
      simp [Except.isOk, Except.toBool, hcont]
    · intro s' out heq
      rw [hsplit] at heq
      injection heq with heq1 heq2
      injection heq2 with heq2
      subst heq1; subst heq2
      refine ⟨rfl, ?_, rfl, rfl, Disj_split_pieces _ _, split_union hself⟩
      show self.mask &&& subset = subset
      rw [Nat.land_comm]
      exact hcont
    · intro s' e heq
      rw [hsplit] at heq
      injection heq with heq1 heq2
      exact absurd heq2 (by simp)
  · have hsplit : self.split subset = (self, Except.error (not32 self.mask &&& subset)) := by
      rw [OwnedInterruptSet.split]
      simp [hm]
    refine ⟨?_, ?_, ?_⟩
    · rw [hsplit]
      simp only [Except.isOk, Except.toBool]
      constructor
      · intro h; exact absurd h (by simp)
      · intro h; exact absurd (missing_zero_of_subset h) hm
    · intro s' out heq
      rw [hsplit] at heq
      injection heq with heq1 heq2
      exact absurd heq2 (by simp)
    · intro s' e heq
      rw [hsplit] at heq
      injection heq with heq1 heq2
      injection heq2 with heq2
      exact ⟨heq2.symm, heq1.symm⟩

/-- C2 witness: a concrete full-mask token split at a contained subset and at
an overreaching subset. -/
theorem C2_split_exact_witness :
    (0x3fffffff : Nat) < 2 ^ 32 ∧ (0x15 : Nat) < 2 ^ 32 ∧
    (((OwnedInterruptSet.mk 0x3fffffff TState.Disabled).split 0x15).2.isOk = true ↔
      (0x15 : Nat) &&& 0x3fffffff = 0x15) :=
  ⟨by norm_num, by norm_num,
   (C2_split_exact { mask := 0x3fffffff, st := TState.Disabled } 0x15
     (by norm_num) (by norm_num)).1⟩

/-- C9: join inverts split — for tokens with disjoint masks a and b, splitting
mask a back out of a.join(b) succeeds, returns a token with mask a, and
leaves a remainder with mask b. -/
theorem C9_join_inverts_split (a b : OwnedInterruptSet)
    (hdisj : Disj a.mask b.mask) (hb : b.mask < 2 ^ 32) :
    ∃ rem out, (a.join b).split a.mask = (rem, Except.ok out) ∧
      out.mask = a.mask ∧ rem.mask = b.mask := by
  have habsorb : (a.mask ||| b.mask) &&& a.mask = a.mask := by
    apply Nat.eq_of_testBit_eq
    intro j
    rw [Nat.testBit_land, Nat.testBit_lor]
    cases a.mask.testBit j <;> cases b.mask.testBit j <;> simp
  have hmiss : not32 ((a.join b).mask) &&& a.mask = 0 := by
    apply missing_zero_of_subset
    show a.mask &&& (a.join b).mask = a.mask
    rw [OwnedInterruptSet.join, Nat.land_comm]
    exact habsorb
  have hrem : (a.mask ||| b.mask) &&& not32 a.mask = b.mask := by
    rw [Disj_iff] at hdisj
    apply Nat.eq_of_testBit_eq
    intro j
    rw [Nat.testBit_land, Nat.testBit_lor, testBit_not32]
    by_cases hj : j < 32
    · rcases hdisj j with h | h <;>
        cases hbj : b.mask.testBit j <;>
        simp_all [hj]
    · rw [testBit_high_eq_false hb (by omega)]
      simp [hj]
  refine ⟨((a.join b).split_leniently a.mask).1, ((a.join b).split_leniently a.mask).2,
    ?_, ?_, ?_⟩
  · rw [OwnedInterruptSet.split]
    simp [hmiss]
  · show (a.join b).mask &&& a.mask = a.mask
    rw [OwnedInterruptSet.join]
    exact habsorb
  · show (a.join b).mask &&& not32 a.mask = b.mask
    rw [OwnedInterruptSet.join]
    exact hrem

/-- C9 witness: disjoint concrete masks 5 and 10. -/
theorem C9_join_inverts_split_witness :
    Disj 5 10 ∧ (10 : Nat) < 2 ^ 32 ∧
    ∃ rem out,
      ((OwnedInterruptSet.mk 5 TState.Disabled).join
        (OwnedInterruptSet.mk 10 TState.Disabled)).split 5 = (rem, Except.ok out) ∧
      out.mask = 5 ∧ rem.mask = 10 :=
  ⟨by decide, by norm_num,
   C9_join_inverts_split { mask := 5, st := TState.Disabled }
     { mask := 10, st := TState.Disabled } (by decide) (by norm_num)⟩

/-! ### Per-bit helpers for masked read-modify-writes -/

theorem land_not32_testBit_true {x m i : Nat} (hm : m.testBit i = true) :
    (x &&& not32 m).testBit i = false := by
  rw [Nat.testBit_land, testBit_not32, hm]
  simp

theorem land_not32_testBit_false {x m : Nat} (hx : x < 2 ^ 32) {i : Nat}
    (hm : m.testBit i = false) :
    (x &&& not32 m).testBit i = x.testBit i := by
  rw [Nat.testBit_land, testBit_not32, hm]
  by_cases hi : i < 32
  · simp [hi]
  · rw [testBit_high_eq_false hx (by omega)]
    simp

theorem lor_testBit_true {x m i : Nat} (hm : m.testBit i = true) :
    (x ||| m).testBit i = true := by
  rw [Nat.testBit_lor, hm, Bool.or_true]

theorem lor_testBit_false {x m i : Nat} (hm : m.testBit i = false) :
    (x ||| m).testBit i = x.testBit i := by
  rw [Nat.testBit_lor, hm, Bool.or_false]

theorem land_mask_idem (x m : Nat) : (x &&& m) &&& m = x &&& m := by
  apply Nat.eq_of_testBit_eq
  intro j
  simp only [Nat.testBit_land]
  cases x.testBit j <;> cases m.testBit j <;> simp

/-- C8: interrupt_flags on a possibly-delivering token returns exactly the
pending-flags register ANDed with the owned mask, performs no register
write, and exposes no bit of any disjoint mask. -/
theorem C8_interrupt_flags_read_only (tok : OwnedInterruptSet) (r : Regs)
    (hst : MaybeEnabled tok.st) :
    (tok.interrupt_flags r).1 = (r.ir &&& tok.mask) ∧
    (tok.interrupt_flags r).2.1 = r ∧
    (tok.interrupt_flags r).2.2 = [] ∧
    (∀ other : Nat, tok.mask &&& other = 0 →
      ((tok.interrupt_flags r).1 &&& other) = 0) := by
  refine ⟨rfl, rfl, rfl, ?_⟩
  intro other hdisj
  have h := Disj_land_left tok.mask r.ir other hdisj
  show (r.ir &&& tok.mask) &&& other = 0
  rw [Nat.land_comm r.ir tok.mask]
  exact h

/-- C8 witness: a Dynamic token owning bits 0 and 2 with pending flags 7. -/
theorem C8_interrupt_flags_read_only_witness :
    MaybeEnabled TState.Dynamic ∧
    ((OwnedInterruptSet.mk 5 TState.Dynamic).interrupt_flags
        { ir := 7, ie := 0, ils := 0, ile := 0 }).1 = ((7 : Nat) &&& 5) ∧
    ((OwnedInterruptSet.mk 5 TState.Dynamic).interrupt_flags
        { ir := 7, ie := 0, ils := 0, ile := 0 }).2.1 =
      { ir := 7, ie := 0, ils := 0, ile := 0 } ∧
    ((OwnedInterruptSet.mk 5 TState.Dynamic).interrupt_flags
        { ir := 7, ie := 0, ils := 0, ile := 0 }).2.2 = [] ∧
    (∀ other : Nat, (5 : Nat) &&& other = 0 →
      (((OwnedInterruptSet.mk 5 TState.Dynamic).interrupt_flags
        { ir := 7, ie := 0, ils := 0, ile := 0 }).1 &&& other) = 0) :=
  ⟨Or.inl rfl,
   C8_interrupt_flags_read_only { mask := 5, st := TState.Dynamic }
     { ir := 7, ie := 0, ils := 0, ile := 0 } (Or.inl rfl)⟩

/-- C6: iter_flagged reads the owned pending bits, clears exactly that
snapshot in hardware via the write-one-to-clear IR write, and returns an
iterator over the snapshot; afterwards interrupt_flags on the same token is
empty and no pending bit under a disjoint mask changed. -/
theorem C6_iter_flagged_clears_snapshot (tok : OwnedInterruptSet) (r : Regs)
    (hst : MaybeEnabled tok.st) (hir : r.ir < 2 ^ 32) :
    (tok.iter_flagged r).1 = InterruptSet.iter (r.ir &&& tok.mask) ∧
    (tok.iter_flagged r).2.1.ir = (r.ir &&& not32 (r.ir &&& tok.mask)) ∧
    (tok.iter_flagged r).2.2 = [(RegName.ir, r.ir &&& tok.mask)] ∧
    (tok.interrupt_flags (tok.iter_flagged r).2.1).1 = 0 ∧
    (∀ other : Nat, other &&& tok.mask = 0 →
      ((tok.iter_flagged r).2.1.ir &&& other) = (r.ir &&& other)) := by
  have hmasked : (r.ir &&& tok.mask) &&& tok.mask = r.ir &&& tok.mask :=
    land_mask_idem r.ir tok.mask
  refine ⟨rfl, ?_, ?_, ?_, ?_⟩
  · show (r.ir &&& not32 ((r.ir &&& tok.mask) &&& tok.mask)) =
        (r.ir &&& not32 (r.ir &&& tok.mask))
    rw [hmasked]
  · show ([] ++ [(RegName.ir, (r.ir &&& tok.mask) &&& tok.mask)]) =
        [(RegName.ir, r.ir &&& tok.mask)]
    rw [hmasked, List.nil_append]
  · show ((r.ir &&& not32 ((r.ir &&& tok.mask) &&& tok.mask)) &&& tok.mask) = 0
    rw [hmasked, eq_zero_iff_testBit]
    intro j
    rw [Nat.testBit_land, Nat.testBit_land, testBit_not32, Nat.testBit_land]
    by_cases hj : j < 32 <;>
      cases ha : r.ir.testBit j <;> cases hm : tok.mask.testBit j <;> simp [hj]
  · intro other hdisj
    rw [eq_zero_iff_testBit] at hdisj
    show ((r.ir &&& not32 ((r.ir &&& tok.mask) &&& tok.mask)) &&& other) =
        (r.ir &&& other)
    rw [hmasked]
    apply Nat.eq_of_testBit_eq
    intro j
    have hd := hdisj j
    rw [Nat.testBit_land] at hd
    rw [Nat.testBit_land, Nat.testBit_land, testBit_not32, Nat.testBit_land]
    by_cases hj : j < 32
    · cases ha : r.ir.testBit j <;> cases ho : other.testBit j <;>
        cases hm : tok.mask.testBit j <;> simp_all [hj]
    · have h0 : r.ir.testBit j = false := testBit_high_eq_false hir (by omega)
      simp [h0]
/-- C6 witness: token owning bits 0..3 (mask 15) with pending flags 0x25. -/
theorem C6_iter_flagged_clears_snapshot_witness :
    MaybeEnabled TState.EnabledLine0 ∧ (0x25 : Nat) < 2 ^ 32 ∧
    ((OwnedInterruptSet.mk 15 TState.EnabledLine0).iter_flagged
        { ir := 0x25, ie := 0, ils := 0, ile := 0 }).1 =
      InterruptSet.iter ((0x25 : Nat) &&& 15) ∧
    ((OwnedInterruptSet.mk 15 TState.EnabledLine0).interrupt_flags
      ((OwnedInterruptSet.mk 15 TState.EnabledLine0).iter_flagged
        { ir := 0x25, ie := 0, ils := 0, ile := 0 }).2.1).1 = 0 :=
  ⟨Or.inr (Or.inl rfl), by norm_num,
   ((C6_iter_flagged_clears_snapshot { mask := 15, st := TState.EnabledLine0 }
      { ir := 0x25, ie := 0, ils := 0, ile := 0 } (Or.inr (Or.inl rfl))
      (by norm_num)).1),
   ((C6_iter_flagged_clears_snapshot { mask := 15, st := TState.EnabledLine0 }
      { ir := 0x25, ie := 0, ils := 0, ile := 0 } (Or.inr (Or.inl rfl))
      (by norm_num)).2.2.2.1)⟩

/-- C7: disable clears the flag-enable bits for exactly the owned bits via a
masked read-modify-write of IE, leaves ILS (and ILE and IR) untouched,
leaves IE bits outside the mask unchanged, performs only the one IE write,
and returns the same bitmask re-tagged Disabled. -/
theorem C7_disable_frame (tok : OwnedInterruptSet) (r : Regs)
    (hie : r.ie < 2 ^ 32) :
    (InterruptConfiguration.disable tok r).1 =
      { mask := tok.mask, st := TState.Disabled } ∧
    (InterruptConfiguration.disable tok r).2.1.ils = r.ils ∧
    (InterruptConfiguration.disable tok r).2.1.ile = r.ile ∧
    (InterruptConfiguration.disable tok r).2.1.ir = r.ir ∧
    (InterruptConfiguration.disable tok r).2.1.ie = (r.ie &&& not32 tok.mask) ∧
    (∀ i, tok.mask.testBit i = true →
      (InterruptConfiguration.disable tok r).2.1.ie.testBit i = false) ∧
    (∀ i, tok.mask.testBit i = false →
      (InterruptConfiguration.disable tok r).2.1.ie.testBit i = r.ie.testBit i) ∧
    (InterruptConfiguration.disable tok r).2.2.map Prod.fst = [RegName.ie] := by
  refine ⟨rfl, rfl, rfl, rfl, rfl, ?_, ?_, rfl⟩
  · intro i hm
    exact land_not32_testBit_true hm
  · intro i hm
    exact land_not32_testBit_false hie hm

/-- C7 witness: disabling a token owning bits 1 and 3 with IE = 0xff. -/
theorem C7_disable_frame_witness :
    (0xff : Nat) < 2 ^ 32 ∧
    (InterruptConfiguration.disable (OwnedInterruptSet.mk 10 TState.EnabledLine1)
        { ir := 0, ie := 0xff, ils := 3, ile := 2 }).1 =
      { mask := 10, st := TState.Disabled } ∧
    (InterruptConfiguration.disable (OwnedInterruptSet.mk 10 TState.EnabledLine1)
        { ir := 0, ie := 0xff, ils := 3, ile := 2 }).2.1.ils = 3 :=
  ⟨by norm_num,
   (C7_disable_frame { mask := 10, st := TState.EnabledLine1 }
      { ir := 0, ie := 0xff, ils := 3, ile := 2 } (by norm_num)).1,
   (C7_disable_frame { mask := 10, st := TState.EnabledLine1 }
      { ir := 0, ie := 0xff, ils := 3, ile := 2 } (by norm_num)).2.1⟩

/-- C5 counterexample: the claimed fixed order, line-select before the
global line-enable bit, is false — on a concrete enable_line_0 call the
recorded register-write order is ILE, ILS, IE rather than ILS, ILE, IE
(set_line invokes enable_line before touching ILS). -/
theorem C5_order_counterexample :
    ¬((InterruptConfiguration.enable_line_0
        { mask := 1, st := TState.Disabled }
        { ir := 0, ie := 0, ils := 0, ile := 0 }).2.2.map Prod.fst =
      [RegName.ils, RegName.ile, RegName.ie]) := by
  decide

/-- C5 (amended): every enable_line_0 / enable_line_1 call performs its
register updates in the fixed order global line-enable (ILE), then
line-select (ILS, a masked read-modify-write leaving unrelated bits
untouched and routing every owned bit to the target line), then flag-enable
(IE, setting the owned bits and leaving the rest); routing is thus written
before the flag-enable bits, so an owned bit never delivers on the wrong
line even momentarily. -/
theorem C5_enable_order_amended (tok : OwnedInterruptSet)
    (line : InterruptLine) (outSt : TState) (r : Regs)
    (hils : r.ils < 2 ^ 32) :
    InterruptConfiguration.enable_line_0 tok r =
      InterruptConfiguration.raw_enable tok InterruptLine.line0
        TState.EnabledLine0 r ∧
    InterruptConfiguration.enable_line_1 tok r =
      InterruptConfiguration.raw_enable tok InterruptLine.line1
        TState.EnabledLine1 r ∧
    ((InterruptConfiguration.raw_enable tok line outSt r).2.2.map Prod.fst =
      [RegName.ile, RegName.ils, RegName.ie]) ∧
    (∀ i, tok.mask.testBit i = true →
      (InterruptConfiguration.raw_enable tok line outSt r).2.1.ils.testBit i =
        (line == InterruptLine.line1)) ∧
    (∀ i, tok.mask.testBit i = false →
      (InterruptConfiguration.raw_enable tok line outSt r).2.1.ils.testBit i =
        r.ils.testBit i) ∧
    ((InterruptConfiguration.raw_enable tok line outSt r).2.1.ile =
      (r.ile ||| (match line with
        | InterruptLine.line0 => 1
        | InterruptLine.line1 => 2))) ∧
    (∀ i, tok.mask.testBit i = true →
      (InterruptConfiguration.raw_enable tok line outSt r).2.1.ie.testBit i = true) ∧
    (∀ i, tok.mask.testBit i = false →
      (InterruptConfiguration.raw_enable tok line outSt r).2.1.ie.testBit i =
        r.ie.testBit i) ∧
    (InterruptConfiguration.raw_enable tok line outSt r).1 =
      { mask := tok.mask, st := outSt } := by
  cases line
  · refine ⟨rfl, rfl, rfl, ?_, ?_, rfl, ?_, ?_, rfl⟩
    · intro i hm
      exact land_not32_testBit_true hm
    · intro i hm
      exact land_not32_testBit_false hils hm
    · intro i hm
      exact lor_testBit_true hm
    · intro i hm
      exact lor_testBit_false hm
  · refine ⟨rfl, rfl, rfl, ?_, ?_, rfl, ?_, ?_, rfl⟩
    · intro i hm
      exact lor_testBit_true hm
    · intro i hm
      exact lor_testBit_false hm
    · intro i hm
      exact lor_testBit_true hm
    · intro i hm
      exact lor_testBit_false hm

/-- C5 witness: enabling bit 0 on line 1 from a cleared register file. -/
theorem C5_enable_order_amended_witness :
    (0 : Nat) < 2 ^ 32 ∧
    ((InterruptConfiguration.raw_enable
        (OwnedInterruptSet.mk 1 TState.Disabled) InterruptLine.line1
        TState.EnabledLine1
        { ir := 0, ie := 0, ils := 0, ile := 0 }).2.2.map Prod.fst =
      [RegName.ile, RegName.ils, RegName.ie]) :=
  ⟨by norm_num,
   (C5_enable_order_amended { mask := 1, st := TState.Disabled }
      InterruptLine.line1 TState.EnabledLine1
      { ir := 0, ie := 0, ils := 0, ile := 0 }
      (by norm_num)).2.2.1⟩

/-! ### The ownership disjointness invariant (C1)

The pool of live tokens of one peripheral is modelled as the list of their
bitmasks; every ownership-moving operation of the source induces a step on
that pool. -/

/-- All live token masks of one peripheral are pairwise disjoint. -/
def PairwiseDisj (l : List Nat) : Prop := l.Pairwise Disj

/-- One observable operation on the pool of live tokens: reordering (the
pool is really a set), the two-way splits (split on success, the internal
split_leniently, split_flagged), a failed split (pool unchanged), join, and
the controller state transitions (which move the mask through unchanged). -/
inductive Step : List Nat → List Nat → Prop
  | perm {l l' : List Nat} (h : l.Perm l') : Step l l'
  | split_leniently (self : OwnedInterruptSet) (subset : Nat) (rest : List Nat) :
      Step (self.mask :: rest)
        ((self.split_leniently subset).1.mask ::
         (self.split_leniently subset).2.mask :: rest)
  | split_ok (self : OwnedInterruptSet) (subset : Nat)
      (s' out : OwnedInterruptSet)
      (h : self.split subset = (s', Except.ok out)) (rest : List Nat) :
      Step (self.mask :: rest) (s'.mask :: out.mask :: rest)
  | split_err (self : OwnedInterruptSet) (subset : Nat)
      (s' : OwnedInterruptSet) (e : Nat)
      (h : self.split subset = (s', Except.error e)) (rest : List Nat) :
      Step (self.mask :: rest) (s'.mask :: rest)
  | split_flagged (self : OwnedInterruptSet) (r : Regs) (rest : List Nat) :
      Step (self.mask :: rest)
        ((self.split_flagged r).1.1.mask ::
         (self.split_flagged r).1.2.mask :: rest)
  | join (self other : OwnedInterruptSet) (rest : List Nat) :
      Step (self.mask :: other.mask :: rest) ((self.join other).mask :: rest)
  | enable (self : OwnedInterruptSet) (line : InterruptLine) (r : Regs)
      (rest : List Nat) :
      Step (self.mask :: rest)
        ((InterruptConfiguration.enable self line r).1.mask :: rest)
  | enable_line_0 (self : OwnedInterruptSet) (r : Regs) (rest : List Nat) :
      Step (self.mask :: rest)
        ((InterruptConfiguration.enable_line_0 self r).1.mask :: rest)
  | enable_line_1 (self : OwnedInterruptSet) (r : Regs) (rest : List Nat) :
      Step (self.mask :: rest)
        ((InterruptConfiguration.enable_line_1 self r).1.mask :: rest)
  | disable (self : OwnedInterruptSet) (r : Regs) (rest : List Nat) :
      Step (self.mask :: rest)
        ((InterruptConfiguration.disable self r).1.mask :: rest)

/-- The branch structure of split, stated as an equation. -/
theorem split_eq_cases (self : OwnedInterruptSet) (subset : Nat) :
    self.split subset =
      (if not32 self.mask &&& subset ≠ 0
       then (self, Except.error (not32 self.mask &&& subset))
       else ((self.split_leniently subset).1,
             Except.ok (self.split_leniently subset).2)) := rfl

theorem split_ok_eq {self : OwnedInterruptSet} {subset : Nat}
    {s' out : OwnedInterruptSet}
    (h : self.split subset = (s', Except.ok out)) :
    s' = (self.split_leniently subset).1 ∧
    out = (self.split_leniently subset).2 := by
  have hc := split_eq_cases self subset
  by_cases hm : not32 self.mask &&& subset = 0
  · simp only [hm, ne_eq, not_true_eq_false, if_false, not_false_eq_true,
      if_neg] at hc
    rw [hc] at h
    injection h with h1 h2
    injection h2 with h2
    exact ⟨h1.symm, h2.symm⟩
  · simp only [ne_eq, hm, not_false_eq_true, if_true, if_pos] at hc
    rw [hc] at h
    injection h with h1 h2
    exact absurd h2 (by simp)

theorem split_err_eq {self : OwnedInterruptSet} {subset : Nat}
    {s' : OwnedInterruptSet} {e : Nat}
    (h : self.split subset = (s', Except.error e)) : s' = self := by
  have hc := split_eq_cases self subset
  by_cases hm : not32 self.mask &&& subset = 0
  · simp only [hm, ne_eq, not_true_eq_false, if_false, not_false_eq_true,
      if_neg] at hc
    rw [hc] at h
    injection h with h1 h2
    exact absurd h2 (by simp)
  · simp only [ne_eq, hm, not_false_eq_true, if_true, if_pos] at hc
    rw [hc] at h
    injection h with h1 h2
    exact h1.symm

theorem PairwiseDisj_split (m s : Nat) (rest : List Nat)
    (h : PairwiseDisj (m :: rest)) :
    PairwiseDisj ((m &&& not32 s) :: (m &&& s) :: rest) := by
  rw [PairwiseDisj, List.pairwise_cons] at h
  obtain ⟨hm, hrest⟩ := h
  rw [PairwiseDisj, List.pairwise_cons, List.pairwise_cons]
  refine ⟨?_, ⟨?_, hrest⟩⟩
  · intro x hx
    rcases List.mem_cons.mp hx with hx | hx
    · subst hx
      exact Disj_split_pieces m s
    · exact Disj_land_left m (not32 s) x (hm x hx)
  · intro x hx
    exact Disj_land_left m s x (hm x hx)

theorem PairwiseDisj_join (a b : Nat) (rest : List Nat)
    (h : PairwiseDisj (a :: b :: rest)) :
    PairwiseDisj ((a ||| b) :: rest) := by
  rw [PairwiseDisj, List.pairwise_cons, List.pairwise_cons] at h
  obtain ⟨ha, hb, hrest⟩ := h
  rw [PairwiseDisj, List.pairwise_cons]
  refine ⟨?_, hrest⟩
  intro x hx
  exact Disj_lor a b x (ha x (List.mem_cons_of_mem b hx)) (hb x hx)

/-- C1: across all live tokens of one peripheral the bitmasks are pairwise
disjoint — the invariant holds for the single all-bits token produced at
bring-up and is preserved by every split, split_leniently, split_flagged,
join and controller state-transition call. -/
theorem C1_ownership_disjointness :
    (∀ r : Regs, PairwiseDisj [(InterruptConfiguration.new r).1.mask]) ∧
    (∀ l l' : List Nat, PairwiseDisj l → Step l l' → PairwiseDisj l') := by
  constructor
  · intro r
    exact List.pairwise_singleton Disj 0x3fffffff
  · intro l l' hl hstep
    cases hstep with
    | perm h => exact (List.Perm.pairwise_iff Disj_symmetric h).mp hl
    | split_leniently self subset rest => exact PairwiseDisj_split self.mask subset rest hl
    | split_ok self subset s' out h rest =>
      obtain ⟨h1, h2⟩ := split_ok_eq h
      subst h1; subst h2
      exact PairwiseDisj_split self.mask subset rest hl
    | split_err self subset s' e h rest =>
      rw [split_err_eq h]
      exact hl
    | split_flagged self r rest =>
      exact PairwiseDisj_split self.mask (r.ir &&& self.mask) rest hl
    | join self other rest => exact PairwiseDisj_join self.mask other.mask rest hl
    | enable self line r rest => cases line <;> exact hl
    | enable_line_0 self r rest => exact hl
    | enable_line_1 self r rest => exact hl
    | disable self r rest => exact hl

/-- C1 witness: pool [3, 4] stepping by a lenient split of subset 1 out of
the first token. -/
theorem C1_ownership_disjointness_witness :
    PairwiseDisj
      (((OwnedInterruptSet.mk 3 TState.Disabled).split_leniently 1).1.mask ::
       ((OwnedInterruptSet.mk 3 TState.Disabled).split_leniently 1).2.mask ::
       [4]) :=
  C1_ownership_disjointness.2 [3, 4] _
    (by
      refine List.Pairwise.cons ?_ (List.pairwise_singleton Disj 4)
      intro x hx
      rw [List.mem_singleton] at hx
      subst hx
      decide)
    (Step.split_leniently { mask := 3, st := TState.Disabled } 1 [4])

/-! ### Dedicated receive buffers (rx_dedicated_buffers.rs)

The NDAT1/NDAT2 new-data registers hold one bit per dedicated buffer
(buffers 0..31 in NDAT1, 32..63 in NDAT2) and are write-one-to-clear.
Rust `<<` on u32 is an arithmetic-overflow program error when the shift
amount reaches 32: with overflow checks enabled it panics. The embedding
makes the overflow explicit: a shift is `none` (panic) when out of range. -/

/-- The new-data flag registers owned by `RxDedicatedBuffer`. -/
structure NdatRegs where
  ndat1 : Nat
  ndat2 : Nat
deriving Repr, DecidableEq

/-- Rust `1u32 << n` with its overflow check: `none` models the panic on a
shift amount of 32 or more. -/
def shl1u32 (n : Nat) : Option Nat :=
  if n < 32 then some (1 <<< n) else none

/-- Embedding of `RxDedicatedBuffer::has_new_data`: NDAT1 bit `index` below
32, NDAT2 bit `index - 32` below 64, false otherwise. -/
def has_new_data (r : NdatRegs) (index : Nat) : Bool :=
  if index < 32 then r.ndat1 &&& (1 <<< index) != 0
  else if index < 64 then r.ndat2 &&& (1 <<< (index - 32)) != 0
  else false

/-- Embedding of `RxDedicatedBuffer::has_new_data_checked`. -/
def has_new_data_checked (r : NdatRegs) (index : Nat) : Except Unit Bool :=
  if index < 64 then Except.ok (has_new_data r index) else Except.error ()

/-- Embedding of `RxDedicatedBuffer::mark_buffer_read`: both branches write
`1 << index` to their register (the NDAT2 branch does NOT shift by
`index - 32`); the W1C write clears the addressed bit. `none` is the panic
of the overflowing shift. -/
def mark_buffer_read (r : NdatRegs) (index : Nat) : Option NdatRegs :=
  if index < 32 then
    (shl1u32 index).map fun v => { r with ndat1 := r.ndat1 &&& not32 v }
  else if index < 64 then
    (shl1u32 index).map fun v => { r with ndat2 := r.ndat2 &&& not32 v }
  else some r

/-- Errors of the `nb`-style receive result. -/
inductive RxError
  | wouldBlock
  | outOfBounds
deriving Repr, DecidableEq

/-- Embedding of `RxDedicatedBuffer::peek`: out-of-bounds check, then the
new-data flag, then the message slot. -/
def peek (mem : List Nat) (r : NdatRegs) (index : Nat) : Except RxError Nat :=
  match has_new_data_checked r index with
  | Except.error _ => Except.error RxError.outOfBounds
  | Except.ok false => Except.error RxError.wouldBlock
  | Except.ok true =>
    match mem.get? index with
    | some m => Except.ok m
    | none => Except.error RxError.outOfBounds

/-- Embedding of `DynRxDedicatedBuffer::receive`: peek, then mark the buffer
read; a peek error propagates before any register write; `none` is a panic
inside mark_buffer_read. -/
def receive (mem : List Nat) (r : NdatRegs) (index : Nat) :
    Option (Except RxError Nat × NdatRegs) :=
  match peek mem r index with
  | Except.error e => some (Except.error e, r)
  | Except.ok message =>
    (mark_buffer_read r index).map fun r' => (Except.ok message, r')

/-- C10 (code bug exhibited): buffer index 32 is inside the 33-element
buffer slice and its NDAT2 new-data bit (bit 0) is set, so the claim says
receive(32) returns the message and clears NDAT2 bit 0 without panicking;
the code instead evaluates the overflowing shift `1u32 << 32` inside
mark_buffer_read and panics (receive evaluates to `none`), while the
sibling read path has_new_data(32) correctly tests NDAT2 bit `32 - 32`. -/
theorem C10_mark_buffer_read_overflow :
    has_new_data { ndat1 := 0, ndat2 := 1 } 32 = true ∧
    (List.replicate 33 (7 : Nat)).get? 32 = some 7 ∧
    shl1u32 32 = none ∧
    receive (List.replicate 33 (7 : Nat)) { ndat1 := 0, ndat2 := 1 } 32 = none := by
  exact ⟨by decide, by decide, by decide, rfl⟩

end Mcan
